import Mathlib

/-!
Verification of two UI components of a desktop Git client against their
natural-language specification.

The first component (author-input.tsx) scans an editor document around the
cursor for a contiguous unmarked, non-whitespace run, and keeps a virtual
placeholder's collapsed state in sync with the document.  The second
component (the add-existing-repository dialog) keeps a candidate path and a
tri-state repository-validity flag, guarded by a monotonically increasing
request token that discards stale asynchronous validation results.

Documents are embedded as character sequences with index positions: the
source converts line/column positions through indexFromPos / posFromIndex,
and for the single-line documents this component edits the two coordinate
systems agree.  Asynchronous completions are embedded as explicit events on
a trace, and the while-loops of the cursor scan as fuel-indexed recursion,
so that divergence is expressible.
-/

namespace AuthorInput

/-- A marked span of the document, as a pair of character indices.  This is
what ActualTextMarker.find() yields once both positions are converted with
doc.indexFromPos. -/
structure Mark where
  mFrom : Nat
  mTo : Nat
deriving DecidableEq, Repr

/-- The editor document: its characters together with the marked spans. -/
structure Doc where
  chars : List Char
  marks : List Mark
deriving DecidableEq, Repr

/-- Number of characters in the document; the valid positions are 0..length
(a position may sit at the very end of the document). -/
def Doc.length (d : Doc) : Nat := d.chars.length

/-- A from/to pair of positions, used both for the hint range returned by
getHintRangeFromCursor and for the ranges of the label and placeholder
markers.  The source names the fields from and to. -/
structure Range where
  rFrom : Nat
  rTo : Nat
deriving DecidableEq, Repr

/-- previousPosition: doc.posFromIndex(doc.indexFromPos(pos) - 1).
posFromIndex clamps a negative index back to the document start, which
natural-number subtraction models exactly. -/
def previousPosition (_d : Doc) (pos : Nat) : Nat := pos - 1

/-- nextPosition: doc.posFromIndex(doc.indexFromPos(pos) + 1).  posFromIndex
clamps an index past the end back to the end position. -/
def nextPosition (d : Doc) (pos : Nat) : Nat := min (pos + 1) d.length

/-- posIsInsideMarkedText: some mark has find().from strictly below the
index of pos and find().to strictly above it.  The source iterates over
doc.findMarksAt(pos); marks not touching pos fail the strict comparison
anyway, so iterating over all marks is equivalent. -/
def posIsInsideMarkedText (d : Doc) (pos : Nat) : Bool :=
  d.marks.any fun m => decide (m.mFrom < pos ∧ pos < m.mTo)

/-- Character of the document at a position, none at or past the end.  The
source's line.charAt returns the empty string there, which fails the
whitespace test. -/
def charAt (d : Doc) (pos : Nat) : Option Char := d.chars.get? pos

/-- isMarkOrWhitespace: the character at pos is whitespace, or pos lies
strictly inside a marked span. -/
def isMarkOrWhitespace (d : Doc) (pos : Nat) : Bool :=
  (match charAt d pos with
   | some c => c.isWhitespace
   | none => false) ||
  posIsInsideMarkedText d pos

/-- Backward extension loop of getHintRangeFromCursor, with explicit fuel:
while the position before the current start is not mark-or-whitespace, move
the start there.  Returns none when the fuel runs out, which happens for
every fuel value exactly when the source loop diverges. -/
def scanBack (d : Doc) : Nat → Nat → Option Nat
  | 0, _ => none
  | fuel + 1, f =>
    if isMarkOrWhitespace d (previousPosition d f) then some f
    else scanBack d fuel (previousPosition d f)

/-- Forward extension loop of getHintRangeFromCursor, with explicit fuel. -/
def scanForward (d : Doc) : Nat → Nat → Option Nat
  | 0, _ => none
  | fuel + 1, t =>
    if isMarkOrWhitespace d (nextPosition d t) then some t
    else scanForward d fuel (nextPosition d t)

/-- getHintRangeFromCursor: extend backward and forward from the cursor and
return the resulting from/to range; none when either loop runs out of
fuel. -/
def getHintRangeFromCursor (d : Doc) (fuel : Nat) (cursor : Nat) : Option Range :=
  match scanBack d fuel cursor, scanForward d fuel cursor with
  | some f, some t => some ⟨f, t⟩
  | _, _ => none

/-- Termination predicate for the combined scan: some fuel suffices. -/
def HintScanTerminates (d : Doc) (cursor : Nat) : Prop :=
  ∃ fuel r, getHintRangeFromCursor d fuel cursor = some r

/-- doc.getRange(a, b) as a character list: the characters from index a
(inclusive) to index b (exclusive). -/
def getRange (d : Doc) (a b : Nat) : List Char := (d.chars.drop a).take (b - a)

/-- Inputs the changes handler of initializeCodeMirror reads: whether a
completion popup is active, whether the editor has a selection, the
document, and the cursor position. -/
structure ChangesContext where
  hintActive : Bool
  somethingSelected : Bool
  doc : Doc
  cursor : Nat
deriving DecidableEq, Repr

/-- Changes handler of initializeCodeMirror; the result tells whether
showHint is invoked.  The handler bails out when a completion is active,
when something is selected, or when the position before the cursor is
inside marked text; otherwise it shows the hint exactly when the character
between that position and the cursor is an at sign. -/
def changesHandler (ctx : ChangesContext) : Bool :=
  if ctx.hintActive then false
  else if ctx.somethingSelected then false
  else
    if posIsInsideMarkedText ctx.doc (previousPosition ctx.doc ctx.cursor) then false
    else decide (getRange ctx.doc (previousPosition ctx.doc ctx.cursor) ctx.cursor = ['@'])

/-- cursorActivity handler of initializeCodeMirror: given the ranges the
label and placeholder markers currently occupy (none when a marker is
absent) and the placeholder's current collapsed state, return its collapsed
state after the handler ran.  The handler recomputes collapse as the
inequality of the label's end index and the placeholder's start index and
writes it only when it differs from the current state. -/
def cursorActivityHandler (label placeholder : Option Range) (collapsed : Bool) : Bool :=
  match label, placeholder with
  | some l, some pl =>
    let collapse := decide (l.rTo ≠ pl.rFrom)
    if collapsed ≠ collapse then collapse else collapsed
  | _, _ => collapsed

theorem scanBack_spec (d : Doc) :
    ∀ (fuel f₀ f : Nat), scanBack d fuel f₀ = some f →
      f ≤ f₀ ∧
      (∀ i, f ≤ i → i < f₀ → isMarkOrWhitespace d i = false) ∧
      isMarkOrWhitespace d (previousPosition d f) = true := by
  intro fuel
  induction fuel with
  | zero => intro f₀ f h; simp [scanBack] at h
  | succ n ih =>
    intro f₀ f h
    rw [scanBack] at h
    cases hc : isMarkOrWhitespace d (previousPosition d f₀) with
    | true =>
      rw [if_pos hc] at h
      cases h
      exact ⟨Nat.le_refl _, fun i hfi hif => absurd (Nat.lt_of_le_of_lt hfi hif) (Nat.lt_irrefl _), hc⟩
    | false =>
      rw [if_neg (by simp [hc])] at h
      obtain ⟨h1, h2, h3⟩ := ih (previousPosition d f₀) f h
      refine ⟨Nat.le_trans h1 (Nat.sub_le _ _), ?_, h3⟩
      intro i hfi hif
      by_cases hi : i < f₀ - 1
      · exact h2 i hfi hi
      · have : i = f₀ - 1 := by
          simp only [previousPosition] at h1
          omega
        rw [show i = previousPosition d f₀ from this]
        exact hc

theorem scanForward_spec (d : Doc) :
    ∀ (fuel t₀ t : Nat), t₀ ≤ d.length → scanForward d fuel t₀ = some t →
      t₀ ≤ t ∧ t ≤ d.length ∧
      (∀ i, t₀ < i → i ≤ t → isMarkOrWhitespace d i = false) ∧
      isMarkOrWhitespace d (nextPosition d t) = true := by
  intro fuel
  induction fuel with
  | zero => intro t₀ t _ h; simp [scanForward] at h
  | succ n ih =>
    intro t₀ t hlen h
    rw [scanForward] at h
    cases hc : isMarkOrWhitespace d (nextPosition d t₀) with
    | true =>
      rw [if_pos hc] at h
      cases h
      exact ⟨Nat.le_refl _, hlen,
        fun i hti hit => absurd (Nat.lt_of_lt_of_le hti hit) (Nat.lt_irrefl _), hc⟩
    | false =>
      rw [if_neg (by simp [hc])] at h
      have hnext : nextPosition d t₀ ≤ d.length := Nat.min_le_right _ _
      obtain ⟨h1, h2, h3, h4⟩ := ih (nextPosition d t₀) t hnext h
      have ht₀next : t₀ ≤ nextPosition d t₀ := by
        simp only [nextPosition]; omega
      refine ⟨Nat.le_trans ht₀next h1, h2, ?_, h4⟩
      intro i hti hit
      by_cases hi : nextPosition d t₀ < i
      · exact h3 i hi hit
      · have : i = nextPosition d t₀ := by
          simp only [nextPosition] at hi h1 ⊢
          omega
        rw [this]
        exact hc

theorem scanBack_of_found (d : Doc) :
    ∀ (c j : Nat), j ≤ c - 1 → isMarkOrWhitespace d j = true →
      ∃ f, scanBack d (c + 1) c = some f := by
  intro c
  induction c with
  | zero =>
    intro j hj hw
    have hj0 : j = 0 := Nat.le_antisymm hj (Nat.zero_le _)
    refine ⟨0, ?_⟩
    rw [scanBack, if_pos]
    simpa [previousPosition, hj0] using hw
  | succ n ih =>
    intro j hj hw
    cases hc : isMarkOrWhitespace d n with
    | true =>
      refine ⟨n + 1, ?_⟩
      rw [scanBack, if_pos]
      simpa [previousPosition] using hc
    | false =>
      have hjn : j ≤ n - 1 := by
        have : j ≠ n := fun he => by rw [he, hc] at hw; cases hw
        omega
      obtain ⟨f, hf⟩ := ih j hjn hw
      refine ⟨f, ?_⟩
      rw [scanBack, if_neg (by simpa [previousPosition] using hc)]
      simpa [previousPosition] using hf

theorem scanForward_of_found (d : Doc) :
    ∀ (k c j : Nat), d.length - c = k → c ≤ d.length →
      min (c + 1) d.length ≤ j → j ≤ d.length → isMarkOrWhitespace d j = true →
      ∃ t, scanForward d (k + 1) c = some t := by
  intro k
  induction k with
  | zero =>
    intro c j hk hc hj1 hj2 hw
    have hceq : c = d.length := by omega
    have hjeq : j = d.length := by omega
    refine ⟨c, ?_⟩
    rw [scanForward, if_pos]
    have : nextPosition d c = d.length := by simp [nextPosition]; omega
    rw [this, ← hjeq]
    exact hw
  | succ n ih =>
    intro c j hk hc hj1 hj2 hw
    have hclt : c < d.length := by omega
    have hnext : nextPosition d c = c + 1 := by simp [nextPosition]; omega
    cases hcnd : isMarkOrWhitespace d (c + 1) with
    | true =>
      refine ⟨c, ?_⟩
      rw [scanForward, if_pos]
      rw [hnext]
      exact hcnd
    | false =>
      have hjne : j ≠ c + 1 := fun he => by rw [he, hcnd] at hw; cases hw
      have hjge : c + 1 ≤ j := by
        have : min (c + 1) d.length = c + 1 := by omega
        omega
      have hjge2 : min (c + 1 + 1) d.length ≤ j := by omega
      obtain ⟨t, ht⟩ := ih (c + 1) j (by omega) (by omega) hjge2 hj2 hw
      refine ⟨t, ?_⟩
      rw [scanForward, if_neg (by rw [hnext]; simp [hcnd])]
      rw [hnext]
      exact ht

theorem scanBack_ab_diverges :
    ∀ fuel, scanBack ⟨['a', 'b'], []⟩ fuel 0 = none ∧
            scanBack ⟨['a', 'b'], []⟩ fuel 1 = none := by
  intro fuel
  induction fuel with
  | zero => exact ⟨rfl, rfl⟩
  | succ n ih =>
    have hc0 : isMarkOrWhitespace ⟨['a', 'b'], []⟩ 0 = false := by decide
    constructor
    · rw [scanBack, if_neg (by simpa [previousPosition] using hc0)]
      simpa [previousPosition] using ih.1
    · rw [scanBack, if_neg (by simpa [previousPosition] using hc0)]
      simpa [previousPosition] using ih.1

theorem get?_eq_head_drop (l : List Char) (n : Nat) : l.get? n = (l.drop n).head? := by
  induction l generalizing n with
  | nil => cases n <;> rfl
  | cons a t ih => cases n with
    | zero => rfl
    | succ m => exact ih m

theorem take_one_eq_singleton (l : List Char) (c : Char) :
    l.take 1 = [c] ↔ l.head? = some c := by
  cases l with
  | nil => simp
  | cons a t => simp

theorem getRange_before_cursor (d : Doc) (cursor : Nat) :
    getRange d (previousPosition d cursor) cursor = ['@'] ↔
      1 ≤ cursor ∧ d.chars.get? (cursor - 1) = some '@' := by
  cases cursor with
  | zero => simp [getRange, previousPosition]
  | succ n =>
    have hsub : n + 1 - n = 1 := by omega
    have h1 : getRange d (previousPosition d (n + 1)) (n + 1) = (d.chars.drop n).take 1 := by
      simp [getRange, previousPosition, hsub]
    rw [h1, take_one_eq_singleton, ← get?_eq_head_drop]
    simp

end AuthorInput

namespace AddExistingRepository

/-- IAddExistingRepositoryState: the candidate path and the tri-state
validity flag (some true / some false / none for the pending null). -/
structure UIState where
  path : String
  isGitRepository : Option Bool
deriving DecidableEq, Repr

/-- The component: its React state together with the private
checkGitRepositoryToken field. -/
structure ComponentState where
  ui : UIState
  checkGitRepositoryToken : Nat
deriving DecidableEq, Repr

/-- Constructor: path empty, flag false, token zero. -/
def initialState : ComponentState := ⟨⟨"", some false⟩, 0⟩

/-- Synchronous prefix of checkIfPathIsRepository, up to the await: store
the new path, set the flag pending, and issue a fresh token by
incrementing the counter. -/
def checkStart (path : String) (s : ComponentState) : ComponentState :=
  ⟨⟨path, none⟩, s.checkGitRepositoryToken + 1⟩

/-- Outcome of the awaited isGitRepository promise: resolution with a
boolean, or rejection. -/
inductive CheckOutcome where
  | ok (isRepo : Bool)
  | err
deriving DecidableEq, Repr

/-- Resumption of checkIfPathIsRepository after the await, for the check
that captured the given token.  A rejected promise aborts the async
function before the token comparison, so nothing happens; a resolved one
updates the flag only when the captured token still equals the counter,
keeping the stored path. -/
def checkComplete (token : Nat) (outcome : CheckOutcome) (s : ComponentState) : ComponentState :=
  match outcome with
  | .err => s
  | .ok isRepo =>
    if token ≠ s.checkGitRepositoryToken then s
    else ⟨⟨s.ui.path, some isRepo⟩, s.checkGitRepositoryToken⟩

/-- onPathChanged: the text box handler reads the input value and starts a
check for it. -/
def onPathChanged (value : String) (s : ComponentState) : ComponentState :=
  checkStart value s

/-- showFilePicker: the native dialog yields nothing when cancelled, and
the component returns immediately; otherwise it starts a check for the
first chosen directory.  Per the external interface a non-cancelled picker
yields a non-empty list, so the headD default is never consulted there. -/
def showFilePicker (directory : Option (List String)) (s : ComponentState) : ComponentState :=
  match directory with
  | none => s
  | some ds => checkStart (ds.headD "") s

/-- An event in the life of the dialog: a new invocation of
checkIfPathIsRepository, or the completion of the awaited promise of the
check that captured the given token. -/
inductive Event where
  | invoke (path : String)
  | complete (token : Nat) (outcome : CheckOutcome)
deriving DecidableEq, Repr

def isInvoke : Event → Bool
  | .invoke _ => true
  | .complete _ _ => false

def step (s : ComponentState) : Event → ComponentState
  | .invoke p => checkStart p s
  | .complete t o => checkComplete t o s

/-- Run the dialog from its constructor state through a trace of events. -/
def run (tr : List Event) : ComponentState := tr.foldl step initialState

def countInvokes : List Event → Nat
  | [] => 0
  | .invoke _ :: rest => countInvokes rest + 1
  | .complete _ _ :: rest => countInvokes rest

/-- Effect of one event on the validity flag, for a segment during which
the counter constantly holds n. -/
def flagFold (n : Nat) (acc : Option Bool) : Event → Option Bool
  | .complete t (.ok b) => if t = n then some b else acc
  | _ => acc

/-- Result the flag shows after the events of tr ran while the counter
held n: the latest resolution of the check with token n, if any. -/
def lastOkResult (n : Nat) (tr : List Event) : Option Bool :=
  tr.foldl (flagFold n) none

/-- Disabled condition of the submit button, from render. -/
def submitDisabled (s : UIState) : Bool :=
  decide (s.path.length = 0) || s.isGitRepository.isNone

/-- Failure of the validity check: the promise rejected, or it resolved
with false. -/
def isFailure : CheckOutcome → Bool
  | .err => true
  | .ok b => !b

/-- An abstract repository record returned by the dispatcher. -/
structure Repository where
  id : Nat
deriving DecidableEq, Repr

/-- Externally visible effects of submitting the dialog. -/
structure AddRepositoryEffects where
  addedPaths : List String
  selectedRepository : Option Repository
  dismissed : Bool
deriving DecidableEq, Repr

/-- resolvedPath: apply the imported untildify function to the path.  The
untildify dependency is external to the repository, so it is passed in as
an abstract function. -/
def resolvedPath (untildify : String → String) (path : String) : String :=
  untildify path

/-- addRepository, the submit handler: send the one-element list holding
the resolved current path to the dispatcher; when the dispatcher yields a
non-empty list, select its first element; in every case dismiss the
dialog.  The dispatcher is abstract; a none result models a null return. -/
def addRepository (untildify : String → String)
    (addRepositories : List String → Option (List Repository))
    (s : ComponentState) : AddRepositoryEffects :=
  match addRepositories [resolvedPath untildify s.ui.path] with
  | some (r :: _) => ⟨[resolvedPath untildify s.ui.path], some r, true⟩
  | _ => ⟨[resolvedPath untildify s.ui.path], none, true⟩

theorem step_token_of_complete (s : ComponentState) (t : Nat) (o : CheckOutcome) :
    (step s (.complete t o)).checkGitRepositoryToken = s.checkGitRepositoryToken := by
  cases o with
  | err => rfl
  | ok b =>
    simp only [step, checkComplete]
    split <;> rfl

theorem foldl_step_token (tr : List Event) :
    ∀ s : ComponentState,
      (tr.foldl step s).checkGitRepositoryToken =
        s.checkGitRepositoryToken + countInvokes tr := by
  induction tr with
  | nil => intro s; simp [countInvokes]
  | cons e rest ih =>
    intro s
    cases e with
    | invoke p =>
      rw [List.foldl_cons, ih]
      simp [step, checkStart, countInvokes]
      omega
    | complete t o =>
      rw [List.foldl_cons, ih, step_token_of_complete]
      simp [countInvokes]

theorem foldl_step_noInvoke (tr : List Event) :
    ∀ (s : ComponentState),
      (∀ e ∈ tr, isInvoke e = false) →
      tr.foldl step s =
        ⟨⟨s.ui.path, tr.foldl (flagFold s.checkGitRepositoryToken) s.ui.isGitRepository⟩,
         s.checkGitRepositoryToken⟩ := by
  induction tr with
  | nil => intro s _; rfl
  | cons e rest ih =>
    intro s hno
    have he := hno e (List.mem_cons_self _ _)
    have hrest : ∀ e ∈ rest, isInvoke e = false :=
      fun e h => hno e (List.mem_cons_of_mem _ h)
    cases e with
    | invoke p => simp [isInvoke] at he
    | complete t o =>
      rw [List.foldl_cons, List.foldl_cons, ih _ hrest]
      cases o with
      | err => rfl
      | ok b =>
        by_cases ht : t = s.checkGitRepositoryToken
        · subst ht
          simp [step, checkComplete, flagFold]
        · simp [step, checkComplete, flagFold, ht]

theorem run_append_invoke (tr₁ tr₂ : List Event) (p : String)
    (h : ∀ e ∈ tr₂, isInvoke e = false) :
    run (tr₁ ++ Event.invoke p :: tr₂) =
      ⟨⟨p, lastOkResult (countInvokes tr₁ + 1) tr₂⟩, countInvokes tr₁ + 1⟩ := by
  unfold run
  rw [List.foldl_append, List.foldl_cons]
  have htok : (tr₁.foldl step initialState).checkGitRepositoryToken = countInvokes tr₁ := by
    rw [foldl_step_token]; simp [initialState]
  have hstep : step (tr₁.foldl step initialState) (.invoke p) =
      ⟨⟨p, none⟩, countInvokes tr₁ + 1⟩ := by
    simp [step, checkStart, htok]
  rw [hstep, foldl_step_noInvoke _ _ h]
  rfl

end AddExistingRepository

open AuthorInput AddExistingRepository

/-- C2: For every document and cursor position on which the scan terminates,
getHintRangeFromCursor returns a range with from below the cursor and to at
or above it that is a contiguous unmarked, non-whitespace run around the
cursor: every position passed over while extending from the cursor toward
either end is neither a whitespace character nor strictly inside a marked
span, and the position one step before from and the position one step after
to each holds whitespace or lies inside a marked span. -/
theorem claim_C2 (d : Doc) (fuel cursor : Nat) (r : Range)
    (hcur : cursor ≤ d.length)
    (h : getHintRangeFromCursor d fuel cursor = some r) :
    r.rFrom ≤ cursor ∧ cursor ≤ r.rTo ∧
    (∀ i, r.rFrom ≤ i → i < cursor → isMarkOrWhitespace d i = false) ∧
    (∀ i, cursor < i → i ≤ r.rTo → isMarkOrWhitespace d i = false) ∧
    isMarkOrWhitespace d (previousPosition d r.rFrom) = true ∧
    isMarkOrWhitespace d (nextPosition d r.rTo) = true := by
  unfold getHintRangeFromCursor at h
  cases hb : scanBack d fuel cursor with
  | none => cases hf : scanForward d fuel cursor <;> simp [hb, hf] at h
  | some f =>
    cases hf : scanForward d fuel cursor with
    | none => simp [hb, hf] at h
    | some t =>
      simp only [hb, hf] at h
      cases h
      obtain ⟨b1, b2, b3⟩ := scanBack_spec d fuel cursor f hb
      obtain ⟨f1, f2, f3, f4⟩ := scanForward_spec d fuel cursor t hcur hf
      exact ⟨b1, f1, b2, f3, b3, f4⟩

theorem claim_C2_witness :
    2 ≤ (⟨[' ', 'a', 'b', ' '], []⟩ : Doc).length ∧
    getHintRangeFromCursor ⟨[' ', 'a', 'b', ' '], []⟩ 5 2 = some ⟨1, 2⟩ ∧
    ((1 : Nat) ≤ 2 ∧ (2 : Nat) ≤ 2 ∧
      (∀ i, 1 ≤ i → i < 2 → isMarkOrWhitespace ⟨[' ', 'a', 'b', ' '], []⟩ i = false) ∧
      (∀ i, 2 < i → i ≤ 2 → isMarkOrWhitespace ⟨[' ', 'a', 'b', ' '], []⟩ i = false) ∧
      isMarkOrWhitespace ⟨[' ', 'a', 'b', ' '], []⟩
        (previousPosition ⟨[' ', 'a', 'b', ' '], []⟩ 1) = true ∧
      isMarkOrWhitespace ⟨[' ', 'a', 'b', ' '], []⟩
        (nextPosition ⟨[' ', 'a', 'b', ' '], []⟩ 2) = true) :=
  ⟨by decide, by decide,
    claim_C2 ⟨[' ', 'a', 'b', ' '], []⟩ 5 2 ⟨1, 2⟩ (by decide) (by decide)⟩

/-- C3 (as stated) is false: the changes handler does not open the
suggestion list merely because the character before the cursor is an at
sign.  In the document a@b with the whole text marked as a span and the
cursor after the at sign, the character immediately before the cursor is an
at sign, no completion is active and nothing is selected, yet showHint is
not invoked, because the position before the cursor lies strictly inside
the marked span. -/
theorem claim_C3_counterexample :
    (⟨['a', '@', 'b'], [⟨0, 3⟩]⟩ : Doc).chars.get? (2 - 1) = some '@' ∧
    changesHandler ⟨false, false, ⟨['a', '@', 'b'], [⟨0, 3⟩]⟩, 2⟩ = false := by
  decide

/-- C3 (amended): After every editor change event, the suggestion list is
opened exactly when no completion popup is already active, nothing is
selected, the position immediately before the cursor is not strictly inside
a marked span, and the character immediately before the cursor is an at
sign (the cursor is at least 1 and the document character at cursor - 1 is
the at sign). -/
theorem claim_C3 (ctx : ChangesContext) :
    changesHandler ctx = true ↔
      (ctx.hintActive = false ∧ ctx.somethingSelected = false ∧
       posIsInsideMarkedText ctx.doc (previousPosition ctx.doc ctx.cursor) = false ∧
       1 ≤ ctx.cursor ∧ ctx.doc.chars.get? (ctx.cursor - 1) = some '@') := by
  unfold changesHandler
  cases hha : ctx.hintActive <;> cases hss : ctx.somethingSelected <;>
    cases hmk : posIsInsideMarkedText ctx.doc (previousPosition ctx.doc ctx.cursor) <;>
      simp [hha, hss, hmk, getRange_before_cursor]

/-- C6: After every cursor-activity event (with the label and placeholder
markers present, as they are from initialization on), the placeholder
marker is collapsed if and only if the end index of the label marker
differs from the start index of the placeholder marker; the placeholder is
visible exactly when no content separates it from the label. -/
theorem claim_C6 (l pl : Range) (collapsed : Bool) :
    (cursorActivityHandler (some l) (some pl) collapsed = true ↔ l.rTo ≠ pl.rFrom) ∧
    (cursorActivityHandler (some l) (some pl) collapsed = false ↔ l.rTo = pl.rFrom) := by
  unfold cursorActivityHandler
  by_cases h : l.rTo = pl.rFrom <;> cases collapsed <;> simp [h]

/-- C9 (as stated) is false: the extension loops do not terminate for every
document and cursor position.  In the two-character document ab with no
marks and the cursor between the characters, the backward loop reaches the
document start, where previousPosition clamps the index back to position 0;
position 0 holds the non-whitespace, unmarked character a, so the loop
re-tests position 0 forever and the scan returns a result for no amount of
fuel. -/
theorem claim_C9_counterexample : ¬ HintScanTerminates ⟨['a', 'b'], []⟩ 1 := by
  rintro ⟨fuel, r, h⟩
  unfold getHintRangeFromCursor at h
  rw [(scanBack_ab_diverges fuel).2] at h
  cases hf : scanForward ⟨['a', 'b'], []⟩ fuel 1 <;> simp [hf] at h

/-- C9 (amended): the extension loops terminate exactly as far as the
scanned positions contain a mark-or-whitespace stop: the backward loop
terminates, within cursor + 1 steps, whenever some position at or below
cursor - 1 is mark-or-whitespace, and the forward loop terminates, within
length - cursor + 1 steps, whenever some position between
min (cursor + 1) length and the document length is mark-or-whitespace.
Clamping at a document boundary does not by itself ensure termination: when
the clamped boundary position is not mark-or-whitespace the loop re-tests
it forever, as the counterexample shows. -/
theorem claim_C9 (d : Doc) (cursor : Nat) :
    ((∃ j, j ≤ cursor - 1 ∧ isMarkOrWhitespace d j = true) →
      ∃ f, scanBack d (cursor + 1) cursor = some f) ∧
    (cursor ≤ d.length →
      (∃ j, min (cursor + 1) d.length ≤ j ∧ j ≤ d.length ∧ isMarkOrWhitespace d j = true) →
      ∃ t, scanForward d (d.length - cursor + 1) cursor = some t) := by
  constructor
  · rintro ⟨j, hj, hw⟩
    exact scanBack_of_found d cursor j hj hw
  · rintro hc ⟨j, h1, h2, h3⟩
    exact scanForward_of_found d (d.length - cursor) cursor j rfl hc h1 h2 h3

theorem claim_C9_witness :
    (∃ f, scanBack ⟨[' ', 'a', ' '], []⟩ 2 1 = some f) ∧
    (∃ t, scanForward ⟨[' ', 'a', ' '], []⟩ 3 1 = some t) :=
  ⟨(claim_C9 ⟨[' ', 'a', ' '], []⟩ 1).1 ⟨0, by decide, by decide⟩,
   (claim_C9 ⟨[' ', 'a', ' '], []⟩ 1).2 (by decide) ⟨2, by decide, by decide, by decide⟩⟩

/-- C1: Every invocation of checkIfPathIsRepository strictly increases the
request token; the completion of a check whose token is no longer the most
recently issued one leaves the component state unchanged; and along every
trace, after the most recent invocation the displayed state holds that
invocation's path and shows exactly the latest resolution of the most
recently issued check (pending while none has resolved). -/
theorem claim_C1 :
    (∀ (s : ComponentState) (p : String),
        s.checkGitRepositoryToken < (step s (Event.invoke p)).checkGitRepositoryToken ∧
        (step s (Event.invoke p)).checkGitRepositoryToken = s.checkGitRepositoryToken + 1) ∧
    (∀ (s : ComponentState) (t : Nat) (o : CheckOutcome),
        t ≠ s.checkGitRepositoryToken → step s (Event.complete t o) = s) ∧
    (∀ (tr₁ tr₂ : List Event) (p : String),
        (∀ e ∈ tr₂, isInvoke e = false) →
        (run (tr₁ ++ Event.invoke p :: tr₂)).ui =
          ⟨p, lastOkResult (countInvokes tr₁ + 1) tr₂⟩) := by
  refine ⟨fun s p => ⟨Nat.lt_succ_self _, rfl⟩, ?_, ?_⟩
  · intro s t o ht
    cases o with
    | err => rfl
    | ok b => simp [step, checkComplete, ht]
  · intro tr₁ tr₂ p h
    rw [run_append_invoke tr₁ tr₂ p h]

theorem claim_C1_witness :
    step ⟨⟨"a", none⟩, 2⟩ (Event.complete 1 (CheckOutcome.ok true)) = ⟨⟨"a", none⟩, 2⟩ ∧
    (run [Event.invoke "a", Event.complete 1 (CheckOutcome.ok true)]).ui = ⟨"a", some true⟩ :=
  ⟨claim_C1.2.1 ⟨⟨"a", none⟩, 2⟩ 1 (CheckOutcome.ok true) (by decide),
   claim_C1.2.2 [] [Event.complete 1 (CheckOutcome.ok true)] "a" (by decide)⟩

/-- C4: Every path change, whether entered in the text box or chosen via
the file picker, immediately stores the new path and sets the validity flag
to the pending state before the asynchronous check resolves: the
synchronous prefix of checkIfPathIsRepository already leaves the state at
the new path with a none flag. -/
theorem claim_C4 (s : ComponentState) (p : String) (ds : List String) (h : ds ≠ []) :
    (onPathChanged p s).ui = ⟨p, none⟩ ∧
    (showFilePicker (some ds) s).ui = ⟨ds.head h, none⟩ := by
  constructor
  · rfl
  · cases ds with
    | nil => exact absurd rfl h
    | cons a t => rfl

theorem claim_C4_witness :
    (onPathChanged "x" initialState).ui = ⟨"x", none⟩ ∧
    (showFilePicker (some ["y"]) initialState).ui = ⟨"y", none⟩ :=
  claim_C4 initialState "x" ["y"] (by decide)

/-- C5 (as stated) is false: a failing check does not always leave the flag
pending or negative.  When a first check is superseded by a second whose
result arrives as true, and only then the first check fails (here by
resolving to false), the stale guard discards the failure and the flag is
left showing true. -/
theorem claim_C5_counterexample :
    isFailure (CheckOutcome.ok false) = true ∧
    (run [Event.invoke "a", Event.invoke "b",
          Event.complete 2 (CheckOutcome.ok true),
          Event.complete 1 (CheckOutcome.ok false)]).ui.isGitRepository = some true := by
  decide

/-- C5 (amended): a failing validity check never sets the flag to true (if
the flag is true afterwards it already was), and raises no user-visible
error: the completion's entire effect is the state update.  When the
failing check is still the most recently issued one, a false resolution
sets the flag negative and a rejected promise leaves the state unchanged
(so the flag keeps the pending value the invocation stored); a superseded
failing check leaves the whole state unchanged, which may keep a positive
flag established by a newer check. -/
theorem claim_C5 (s : ComponentState) (t : Nat) (o : CheckOutcome)
    (hfail : isFailure o = true) :
    ((checkComplete t o s).ui.isGitRepository = some true →
      s.ui.isGitRepository = some true) ∧
    (o = CheckOutcome.err → checkComplete t o s = s) ∧
    (t = s.checkGitRepositoryToken → o = CheckOutcome.ok false →
      (checkComplete t o s).ui.isGitRepository = some false) ∧
    (t ≠ s.checkGitRepositoryToken → checkComplete t o s = s) := by
  cases o with
  | err =>
    refine ⟨fun h => h, fun _ => rfl, ?_, fun _ => rfl⟩
    intro _ ho
    exact absurd ho (by simp)
  | ok b =>
    cases b with
    | false =>
      refine ⟨?_, ?_, ?_, ?_⟩
      · intro h
        by_cases ht : t = s.checkGitRepositoryToken
        · simp [checkComplete, ht] at h
        · simpa [checkComplete, ht] using h
      · intro ho
        exact absurd ho (by simp)
      · intro ht _
        simp [checkComplete, ht]
      · intro ht
        simp [checkComplete, ht]
    | true => simp [isFailure] at hfail

theorem claim_C5_witness :
    (checkComplete 1 (CheckOutcome.ok false) ⟨⟨"p", none⟩, 1⟩).ui.isGitRepository =
      some false :=
  (claim_C5 ⟨⟨"p", none⟩, 1⟩ 1 (CheckOutcome.ok false) (by decide)).2.2.1 rfl rfl

/-- C7: If the native directory picker returns nothing, showFilePicker
leaves the dialog state unchanged (in particular no token is issued, so no
path check starts); otherwise the first chosen directory becomes the
candidate path and a validity check for it is started: the resulting state
is exactly the synchronous prefix of checkIfPathIsRepository on that
directory, with the flag pending and a fresh token. -/
theorem claim_C7 :
    (∀ s : ComponentState, showFilePicker none s = s) ∧
    (∀ (s : ComponentState) (ds : List String) (h : ds ≠ []),
      showFilePicker (some ds) s = checkStart (ds.head h) s ∧
      (showFilePicker (some ds) s).ui = ⟨ds.head h, none⟩ ∧
      (showFilePicker (some ds) s).checkGitRepositoryToken =
        s.checkGitRepositoryToken + 1) := by
  refine ⟨fun s => rfl, ?_⟩
  intro s ds h
  cases ds with
  | nil => exact absurd rfl h
  | cons a t => exact ⟨rfl, rfl, rfl⟩

theorem claim_C7_witness :
    showFilePicker none initialState = initialState ∧
    showFilePicker (some ["y"]) initialState = checkStart "y" initialState :=
  ⟨claim_C7.1 initialState, (claim_C7.2 initialState ["y"] (by decide)).1⟩

/-- C8: When the dialog is submitted, the dispatcher receives exactly the
one-element list holding the untildified current path; if the returned
repository list is non-empty its first element is selected; and in every
case the dialog is dismissed afterwards. -/
theorem claim_C8 (untildify : String → String)
    (disp : List String → Option (List Repository)) (s : ComponentState) :
    (addRepository untildify disp s).addedPaths = [untildify s.ui.path] ∧
    (∀ (r : Repository) (l : List Repository),
        disp [untildify s.ui.path] = some (r :: l) →
        (addRepository untildify disp s).selectedRepository = some r) ∧
    (addRepository untildify disp s).dismissed = true := by
  cases hd : disp [untildify s.ui.path] with
  | none =>
    refine ⟨?_, ?_, ?_⟩ <;> simp [addRepository, resolvedPath, hd]
  | some l =>
    cases l with
    | nil =>
      refine ⟨?_, ?_, ?_⟩ <;> simp [addRepository, resolvedPath, hd]
    | cons r t =>
      refine ⟨by simp [addRepository, resolvedPath, hd], ?_,
        by simp [addRepository, resolvedPath, hd]⟩
      intro r' l' h
      cases h
      simp [addRepository, resolvedPath, hd]

theorem claim_C8_witness :
    (addRepository id (fun _ => some [⟨7⟩]) ⟨⟨"r", some true⟩, 0⟩).addedPaths = ["r"] ∧
    (addRepository id (fun _ => some [⟨7⟩]) ⟨⟨"r", some true⟩, 0⟩).selectedRepository =
      some ⟨7⟩ ∧
    (addRepository id (fun _ => some [⟨7⟩]) ⟨⟨"r", some true⟩, 0⟩).dismissed = true :=
  ⟨(claim_C8 id (fun _ => some [⟨7⟩]) ⟨⟨"r", some true⟩, 0⟩).1,
   (claim_C8 id (fun _ => some [⟨7⟩]) ⟨⟨"r", some true⟩, 0⟩).2.1 ⟨7⟩ [] rfl,
   (claim_C8 id (fun _ => some [⟨7⟩]) ⟨⟨"r", some true⟩, 0⟩).2.2⟩

/-- C10: At every render, the submit button is disabled exactly when the
stored path is empty or the validity flag is pending; hence along every
trace whose most recent invocation has not yet received a resolution, the
button is disabled, so a repository can never be submitted via the button
while a check is in flight or with an empty path. -/
theorem claim_C10 :
    (∀ ui : UIState,
        (submitDisabled ui = true ↔ ui.path.length = 0 ∨ ui.isGitRepository = none)) ∧
    (∀ (tr₁ tr₂ : List Event) (p : String),
        (∀ e ∈ tr₂, isInvoke e = false) →
        lastOkResult (countInvokes tr₁ + 1) tr₂ = none →
        submitDisabled (run (tr₁ ++ Event.invoke p :: tr₂)).ui = true) := by
  constructor
  · intro ui
    simp [submitDisabled, Option.isNone_iff_eq_none]
  · intro tr₁ tr₂ p h hnone
    rw [run_append_invoke tr₁ tr₂ p h]
    simp [submitDisabled, hnone]

theorem claim_C10_witness :
    submitDisabled (run [Event.invoke "x"]).ui = true :=
  claim_C10.2 [] [] "x" (by decide) rfl
